import Mathlib

/-!
A shallow embedding of the cache simulator in `src/cachesim/cachesim.c`,
together with proofs of the specified properties.

Machine integers are modelled as `Nat`; the address type `addr_t` is a
32-bit unsigned integer (`ADDR_WIDTH = 32`), so addresses are naturals
below `2 ^ 32`.  `plru_bits` and `fifo_pointer` are `uint64_t` fields;
the bitwise complement `~x` on `uint64_t` is rendered as
`(2 ^ 64 - 1) ^^^ x`.  The global mutable state (cache store and the two
statistics counters) becomes an explicit state record threaded through
`access_cache`.  The process-wide random generator is modelled by passing
the value that `rand()` returns as an explicit argument.
-/

/-- The macro `#define ADDR_WIDTH 32` (cachesim.c line 10). -/
def ADDR_WIDTH : Nat := 32

/-- One step of the loop in the `LOG2` macro (cachesim.c lines 21-29):
`while (num) { num >>= 1; result++; }`.  The first argument is fuel; the
loop halves `num` each iteration, so it runs `bitlength num` times, and
`bitlength num ≤ num` for every `num`, hence fuel `num` is enough. -/
def LOG2_loop : Nat → Nat → Int → Int
  | 0, _, result => result
  | fuel + 1, num, result =>
    if num = 0 then result else LOG2_loop fuel (num >>> 1) (result + 1)

/-- The `LOG2` macro (cachesim.c lines 21-29): `result` starts at `-1`
and is incremented once per loop iteration, so `LOG2 0 = -1` and
`LOG2 n = ⌊log₂ n⌋` for `n ≥ 1`. -/
def LOG2 (n : Nat) : Int := LOG2_loop n n (-1)

/-- The macro `#define BIT_MASK(bits) ((1ull << (bits)) - 1)` (cachesim.c line 31). -/
def BIT_MASK (bits : Nat) : Nat := (1 <<< bits) - 1

/-- The macro `#define GET_BITS(a, hi, lo) (((a) & BIT_MASK((hi) + 1)) >> (lo))`
(cachesim.c line 32).  The argument `hip1` is `hi + 1`, computed in `int`
arithmetic at each call site (so e.g. for `GET_OFFSET` it is
`(bits_for_offset - 1) + 1 = bits_for_offset`, also when
`bits_for_offset = 0`). -/
def GET_BITS (a hip1 lo : Nat) : Nat := (a &&& BIT_MASK hip1) >>> lo

/-- The enum `replacement_policy_t` (cachesim.c lines 43-47). -/
inductive replacement_policy_t where
  | POLICY_PLRU
  | POLICY_FIFO
  | POLICY_RANDOM
deriving DecidableEq, Repr

export replacement_policy_t (POLICY_PLRU POLICY_FIFO POLICY_RANDOM)

/-- The struct `cache_config_t` (cachesim.c lines 49-60).  The `int` fields are
naturals (they are only ever set to non-negative values); `bits_for_tag`
is kept as `Int` since it is computed by `int` subtraction. -/
structure cache_config_t where
  total_size : Nat
  block_size : Nat
  block_num : Nat
  associativity : Nat
  policy : replacement_policy_t
  set_num : Nat
  bits_for_offset : Nat
  bits_for_index : Nat
  bits_for_tag : Int
deriving DecidableEq, Repr

/-- The macro `#define GET_OFFSET(addr)` (cachesim.c line 33). -/
def GET_OFFSET (cfg : cache_config_t) (addr : Nat) : Nat :=
  GET_BITS addr cfg.bits_for_offset 0

/-- The macro `#define GET_INDEX(addr)` (cachesim.c line 34). -/
def GET_INDEX (cfg : cache_config_t) (addr : Nat) : Nat :=
  GET_BITS addr (cfg.bits_for_offset + cfg.bits_for_index) cfg.bits_for_offset

/-- The macro `#define GET_TAG(addr)` (cachesim.c line 35). -/
def GET_TAG (cfg : cache_config_t) (addr : Nat) : Nat :=
  GET_BITS addr ADDR_WIDTH (cfg.bits_for_offset + cfg.bits_for_index)

/-- The struct `cache_line_t` (cachesim.c lines 62-65): `uint32_t valid` is used as
a boolean flag (written only with 0/1), `uint64_t tag`. -/
structure cache_line_t where
  valid : Bool
  tag : Nat
deriving DecidableEq, Repr, Inhabited

/-- The struct `cache_set_t` (cachesim.c lines 67-71): the line array plus the
per-set replacement state. -/
structure cache_set_t where
  cache_line : List cache_line_t
  plru_bits : Nat
  fifo_pointer : Nat
deriving DecidableEq, Repr, Inhabited

/-- The global mutable simulation state: `cache` (line 74) together with
the statistics counters `total_access_times` and `total_hit_times`
(lines 38-39). -/
structure sim_state_t where
  cache : List cache_set_t
  total_access_times : Nat
  total_hit_times : Nat
deriving DecidableEq, Repr, Inhabited

/-- The function `is_pow_2` (cachesim.c lines 77-79):
`(n > 0) && ((n & (n - 1)) == 0)`. -/
def is_pow_2 (n : Nat) : Bool := decide (0 < n) && (n &&& (n - 1) == 0)

/-- The failure kinds of `check_config` (cachesim.c lines 99-124); each
`Assert(0, ...)` there aborts the run with the corresponding
diagnostic. -/
inductive ConfigError where
  | MissingParameter
  | NotPowerOfTwo
  | AssociativityExceedsBlocks
  | AssociativityTooLarge
deriving DecidableEq, Repr

/-- The function `check_config` (cachesim.c lines 99-124), with the aborting
`Assert`s rendered as returning the error that is reported; `none` means
every check passed.  The checks run in source order. -/
def check_config (cfg : cache_config_t) : Option ConfigError :=
  if cfg.associativity = 0 ∨ cfg.total_size = 0 ∨ cfg.block_size = 0 then
    some ConfigError.MissingParameter
  else if is_pow_2 cfg.total_size = false then
    some ConfigError.NotPowerOfTwo
  else if is_pow_2 cfg.block_size = false then
    some ConfigError.NotPowerOfTwo
  else if is_pow_2 cfg.associativity = false then
    some ConfigError.NotPowerOfTwo
  else if cfg.block_num < cfg.associativity then
    some ConfigError.AssociativityExceedsBlocks
  else if 64 < cfg.associativity then
    some ConfigError.AssociativityTooLarge
  else
    none

/-- The geometry derivation at the start of `init_cache` (cachesim.c
lines 167-172): `block_num`, `set_num` and the three bit-field widths
computed from the user-supplied parameters. -/
def derive_config (total block assoc : Nat) (p : replacement_policy_t) :
    cache_config_t :=
  { total_size := total
    block_size := block
    block_num := total / block
    associativity := assoc
    policy := p
    set_num := total / block / assoc
    bits_for_offset := (LOG2 block).toNat
    bits_for_index := (LOG2 (total / block / assoc)).toNat
    bits_for_tag :=
      (ADDR_WIDTH : Int) - (LOG2 block).toNat -
        (LOG2 (total / block / assoc)).toNat }

/-- The result of `init_cache` (cachesim.c lines 166-219): the derived
configuration, the store (`some` = the allocation at lines 174-196 has
happened; `calloc` zero-fills the lines and lines 194-195 zero the
per-set policy state), and the outcome of `check_config`.  In the source
the store allocation (lines 174-196) is executed first and `check_config`
is only called afterwards (line 204), so the record always carries an
allocated store, also when validation fails and the run aborts. -/
structure init_result_t where
  config : cache_config_t
  store : Option (List cache_set_t)
  error : Option ConfigError
deriving DecidableEq, Repr

/-- The function `init_cache` (cachesim.c lines 166-219), in source order: derive the
geometry (lines 167-172), allocate and zero-initialise the store
(lines 174-196), then validate the configuration (line 204). -/
def init_cache (total block assoc : Nat) (p : replacement_policy_t) :
    init_result_t :=
  let cfg := derive_config total block assoc p
  let store :=
    List.replicate cfg.set_num
      { cache_line := List.replicate cfg.associativity { valid := false, tag := 0 }
        plru_bits := 0
        fifo_pointer := 0 }
  { config := cfg, store := some store, error := check_config cfg }

/-- The statement `plru_bits |= (1ULL << i)` (cachesim.c lines 238 and 263). -/
def set_bit (s i : Nat) : Nat := s ||| (1 <<< i)

/-- The statement `plru_bits &= ~(1ULL << i)` (cachesim.c lines 236 and 261); on
`uint64_t` the complement `~x` is `(2 ^ 64 - 1) ^^^ x`. -/
def clear_bit (s i : Nat) : Nat := s &&& ((2 ^ 64 - 1) ^^^ (1 <<< i))

/-- The loop of `update_plru_victim_way` (cachesim.c lines 231-242),
phrased with `l` = number of remaining levels (so the shift
`tree_level - 1 - i` of line 232 is `l - 1` for the current iteration):
at each level the direction is the next most-significant bit of
`hit_way`, the current node's bit is cleared when the direction is 1 and
set when it is 0 (lines 235-239), and the walk descends to node
`2 * i + 1 + direction` (line 241). -/
def update_plru_loop : Nat → Nat → Nat → Nat → Nat
  | 0, _, s, _ => s
  | l + 1, i, s, hit_way =>
    let direction := (hit_way >>> l) &&& 1
    let s' := if direction = 1 then clear_bit s i else set_bit s i
    update_plru_loop l (2 * i + 1 + direction) s' hit_way

/-- The function `update_plru_victim_way` (cachesim.c lines 222-243): for
`associativity = 1` it returns immediately (line 224), otherwise it runs
the tree walk for `tree_level = LOG2(associativity)` levels starting at
node 0.  The mutated `plru_bits` field is the return value. -/
def update_plru_victim_way (assoc plru_bits hit_way : Nat) : Nat :=
  if assoc = 1 then plru_bits
  else update_plru_loop (LOG2 assoc).toNat 0 plru_bits hit_way

/-- The loop of `find_and_updata_plru_victim_way` (cachesim.c
lines 257-269): at each level read the current node's bit (line 258),
clear it if it was 1 and set it if it was 0 (lines 260-264), descend to
node `2 * i + 1 + bit` (line 266), and shift the read bit into the
victim accumulator (line 268).  Returns `(victim_way, plru_bits)`. -/
def find_plru_loop : Nat → Nat → Nat → Nat → Nat × Nat
  | 0, _, s, victim => (victim, s)
  | l + 1, i, s, victim =>
    let bit := (s >>> i) &&& 1
    let s' := if bit = 1 then clear_bit s i else set_bit s i
    find_plru_loop l (2 * i + 1 + bit) s' (victim <<< 1 ||| bit)

/-- The function `find_and_updata_plru_victim_way` (cachesim.c lines 246-272) [sic,
the source spells it "updata"]: for `associativity = 1` it returns way 0
without touching `plru_bits` (lines 247-249), otherwise it walks
`tree_level = LOG2(associativity)` levels from the root.  Returns the
pair `(victim_way, new plru_bits)`. -/
def find_and_updata_plru_victim_way (assoc plru_bits : Nat) : Nat × Nat :=
  if assoc = 1 then (0, plru_bits)
  else find_plru_loop (LOG2 assoc).toNat 0 plru_bits 0

/-- The function `find_and_update_fifo_victim_way` (cachesim.c lines 274-278): return
the current pointer and advance it by one modulo the associativity.
Returns the pair `(victim_way, new fifo_pointer)`. -/
def find_and_update_fifo_victim_way (assoc fifo_pointer : Nat) :
    Nat × Nat :=
  (fifo_pointer, (fifo_pointer + 1) % assoc)

/-- The function `find_random_victim_way` (cachesim.c lines 280-282), with the value
returned by `rand()` passed explicitly as `r`. -/
def find_random_victim_way (assoc r : Nat) : Nat := r % assoc

/-- The linear scan of `access_cache` (cachesim.c lines 294-300): the
first line `i` with `tag == cache_line[i].tag && cache_line[i].valid`,
or `none` (the `hit_way = -1` sentinel) when there is no such line.  The
C loop bound `i < config.associativity` equals the allocated length of
the line array. -/
def find_hit_way (tag : Nat) : List cache_line_t → Option Nat
  | [] => none
  | l :: ls =>
    if tag == l.tag && l.valid then some 0
    else (find_hit_way tag ls).map (· + 1)

/-- The `switch (config.policy)` of the miss path of `access_cache`
(cachesim.c lines 312-324): obtain the victim way from the configured
policy, mutating that policy's per-set state. -/
def select_victim (cfg : cache_config_t) (r : Nat) (s : cache_set_t) :
    Nat × cache_set_t :=
  match cfg.policy with
  | POLICY_PLRU =>
    let p := find_and_updata_plru_victim_way cfg.associativity s.plru_bits
    (p.1, { s with plru_bits := p.2 })
  | POLICY_FIFO =>
    let p := find_and_update_fifo_victim_way cfg.associativity s.fifo_pointer
    (p.1, { s with fifo_pointer := p.2 })
  | POLICY_RANDOM =>
    (find_random_victim_way cfg.associativity r, s)

/-- The set selected by an access: `cache[index]` (cachesim.c
line 290). -/
def set_of (st : sim_state_t) (idx : Nat) : cache_set_t :=
  st.cache.getD idx default

/-- The function `access_cache` (cachesim.c lines 284-331): bump the access counter,
decode index and tag, scan the selected set; on a hit bump the hit
counter and (for PLRU only) update the tree bits; on a miss obtain the
victim way from the configured policy and overwrite that line with the
new tag, marking it valid. -/
def access_cache (cfg : cache_config_t) (r addr : Nat) (st : sim_state_t) :
    sim_state_t :=
  let total := st.total_access_times + 1
  let index := GET_INDEX cfg addr
  let tag := GET_TAG cfg addr
  let s := set_of st index
  match find_hit_way tag s.cache_line with
  | some hit_way =>
    let s' :=
      if cfg.policy = POLICY_PLRU then
        { s with plru_bits := update_plru_victim_way cfg.associativity s.plru_bits hit_way }
      else s
    { cache := st.cache.set index s'
      total_access_times := total
      total_hit_times := st.total_hit_times + 1 }
  | none =>
    let p := select_victim cfg r s
    let s' := { p.2 with cache_line := p.2.cache_line.set p.1 { valid := true, tag := tag } }
    { cache := st.cache.set index s'
      total_access_times := total
      total_hit_times := st.total_hit_times }

/-- A configuration accepted by `check_config`, with the additional
bound `total_size ≤ 2 ^ 30` imposed by the C `int` type of the
user-supplied parameters (the largest power of two a positive `int` can
hold). -/
def valid_params (total block assoc : Nat) : Prop :=
  is_pow_2 total = true ∧ is_pow_2 block = true ∧ is_pow_2 assoc = true ∧
    assoc ≤ total / block ∧ assoc ≤ 64 ∧ total ≤ 2 ^ 30

instance (total block assoc : Nat) : Decidable (valid_params total block assoc) := by
  unfold valid_params
  infer_instance

/-- Well-formedness of the simulation state for a configuration: the
store has `set_num` sets, each with `associativity` lines and an
in-range FIFO pointer — exactly the shape `init_cache` allocates and
`access_cache` preserves. -/
def wf_state (cfg : cache_config_t) (st : sim_state_t) : Prop :=
  st.cache.length = cfg.set_num ∧
    ∀ s ∈ st.cache,
      s.cache_line.length = cfg.associativity ∧ s.fifo_pointer < cfg.associativity

instance (cfg : cache_config_t) (st : sim_state_t) : Decidable (wf_state cfg st) := by
  unfold wf_state
  infer_instance

/-- A line holding the decoded tag and marked valid exists in the set —
the hit condition of the spec ("linear-scan its lines for one with
`valid = true` and `tag` equal to the decoded tag"). -/
def tag_match_exists (tag : Nat) (s : cache_set_t) : Prop :=
  ∃ l ∈ s.cache_line, l.valid = true ∧ l.tag = tag

instance (tag : Nat) (s : cache_set_t) : Decidable (tag_match_exists tag s) := by
  unfold tag_match_exists
  infer_instance

/-- Modelled from the spec (claim C3): PLRU `select_victim` descends for
`l` levels from node `i`, at each level reading the current node's bit,
flipping that bit (a set bit becomes clear and vice versa), descending
to child `2 * i + 1 + bit`, and concatenating the read bits
most-significant first into the way index. -/
def plru_select_spec : Nat → Nat → Nat → Nat × Nat
  | 0, _, s => (0, s)
  | l + 1, i, s =>
    let bit : Nat := if s.testBit i then 1 else 0
    let flipped := if s.testBit i then clear_bit s i else set_bit s i
    let rest := plru_select_spec l (2 * i + 1 + bit) flipped
    (bit * 2 ^ l + rest.1, rest.2)

/-- Writing a single bit: `write_bit s i v` is `s` with bit `i` set to
the bit value `v`. -/
def write_bit (s i v : Nat) : Nat :=
  if v = 1 then set_bit s i else clear_bit s i

/-- Modelled from the spec (claim C4): PLRU `on_hit` walks `l` levels
from node `i`; at each level the direction is the next most-significant
decision bit of the hit way `w`, the current node's bit is set to
`1 - direction`, and the walk descends to child `2 * i + 1 +
direction`. -/
def plru_on_hit_spec : Nat → Nat → Nat → Nat → Nat
  | 0, _, s, _ => s
  | l + 1, i, s, w =>
    let direction : Nat := if w.testBit l then 1 else 0
    plru_on_hit_spec l (2 * i + 1 + direction) (write_bit s i (1 - direction)) w

/-- The FIFO pointer of a set after `k` successive calls of
`find_and_update_fifo_victim_way` starting from pointer `p`. -/
def fifo_ptr_iter (assoc : Nat) : Nat → Nat → Nat
  | 0, p => p
  | k + 1, p => fifo_ptr_iter assoc k (find_and_update_fifo_victim_way assoc p).2

/-- A freshly initialised one-set, two-way store (the state `init_cache`
produces for `total_size = 8`, `block_size = 4`, `associativity = 2`),
used to exercise the theorems on concrete inputs. -/
def demo_state : sim_state_t :=
  { cache := [{ cache_line := [{ valid := false, tag := 0 }, { valid := false, tag := 0 }]
                plru_bits := 0
                fifo_pointer := 0 }]
    total_access_times := 0
    total_hit_times := 0 }

/-! ### Arithmetic groundwork -/

theorem LOG2_loop_zero (fuel : Nat) (r : Int) : LOG2_loop fuel 0 r = r := by
  cases fuel <;> simp [LOG2_loop]

theorem LOG2_loop_pow (fuel k : Nat) (r : Int) (h : k < fuel) :
    LOG2_loop fuel (2 ^ k) r = r + k + 1 := by
  induction fuel generalizing k r with
  | zero => omega
  | succ fuel ih =>
    rw [LOG2_loop]
    rw [if_neg (Nat.pow_pos (a := 2) (n := k) (by omega)).ne']
    cases k with
    | zero =>
      have : (2 : Nat) ^ 0 >>> 1 = 0 := by decide
      rw [this, LOG2_loop_zero]
      omega
    | succ k =>
      have hshift : (2 : Nat) ^ (k + 1) >>> 1 = 2 ^ k := by
        rw [Nat.shiftRight_eq_div_pow, Nat.pow_one, Nat.pow_succ, Nat.mul_div_cancel]
        omega
      rw [hshift, ih k (r + 1) (by omega)]
      omega

theorem LOG2_pow (k : Nat) : LOG2 (2 ^ k) = (k : Int) := by
  rw [LOG2, LOG2_loop_pow (2 ^ k) k (-1) (Nat.lt_two_pow k)]
  omega

theorem LOG2_pow_toNat (k : Nat) : (LOG2 (2 ^ k)).toNat = k := by
  rw [LOG2_pow]
  simp

theorem is_pow_2_of_pow (k : Nat) : is_pow_2 (2 ^ k) = true := by
  unfold is_pow_2
  refine (Bool.and_eq_true _ _).mpr ⟨by simp [Nat.pow_pos], ?_⟩
  refine beq_iff_eq.mpr (Nat.eq_of_testBit_eq fun j => ?_)
  rw [Nat.testBit_and, Nat.zero_testBit]
  rcases eq_or_ne j k with rfl | hj
  · rw [Nat.testBit_two_pow_sub_one]
    simp
  · rw [Nat.testBit_two_pow_of_ne (Ne.symm hj)]
    simp

theorem exists_pow_of_is_pow_2 {n : Nat} (h : is_pow_2 n = true) :
    ∃ k, n = 2 ^ k := by
  unfold is_pow_2 at h
  rw [Bool.and_eq_true, decide_eq_true_iff, beq_iff_eq] at h
  obtain ⟨hpos, hand⟩ := h
  refine ⟨n.log2, ?_⟩
  by_contra hne
  have h1 : 2 ^ n.log2 ≤ n := Nat.log2_self_le (by omega)
  have h2 : n < 2 ^ (n.log2 + 1) := Nat.lt_log2_self
  have h3 : 2 ^ n.log2 < n := lt_of_le_of_ne h1 (fun he => hne he.symm)
  have hb1 : n.testBit n.log2 = true := by
    rw [Nat.testBit_to_div_mod]
    have : n / 2 ^ n.log2 = 1 := by
      apply Nat.div_eq_of_lt_le (by omega)
      rw [Nat.pow_succ] at h2
      omega
    simp [this]
  have hb2 : (n - 1).testBit n.log2 = true := by
    rw [Nat.testBit_to_div_mod]
    have : (n - 1) / 2 ^ n.log2 = 1 := by
      apply Nat.div_eq_of_lt_le (by omega)
      rw [Nat.pow_succ] at h2
      omega
    simp [this]
  have : (n &&& (n - 1)).testBit n.log2 = true := by
    rw [Nat.testBit_and, hb1, hb2]
    rfl
  rw [hand] at this
  simp at this

/-- Unpacking a valid configuration into power-of-two exponents:
`total = 2 ^ et`, `block = 2 ^ eb`, `assoc = 2 ^ ea` with
`eb + ea ≤ et`, `et ≤ 30` and `ea ≤ 6`. -/
theorem valid_params_unpack {t b a : Nat} (hv : valid_params t b a) :
    ∃ et eb ea, t = 2 ^ et ∧ b = 2 ^ eb ∧ a = 2 ^ ea ∧
      eb ≤ et ∧ ea ≤ et - eb ∧ et ≤ 30 ∧ ea ≤ 6 := by
  obtain ⟨ht, hb, ha, hab, ha64, ht30⟩ := hv
  obtain ⟨et, rfl⟩ := exists_pow_of_is_pow_2 ht
  obtain ⟨eb, rfl⟩ := exists_pow_of_is_pow_2 hb
  obtain ⟨ea, rfl⟩ := exists_pow_of_is_pow_2 ha
  have hbe : eb ≤ et := by
    by_contra hgt
    have : (2 : Nat) ^ et < 2 ^ eb := Nat.pow_lt_pow_right (by omega) (by omega)
    have hz : 2 ^ et / 2 ^ eb = 0 := Nat.div_eq_of_lt this
    rw [hz] at hab
    have := Nat.pow_pos (a := 2) (n := ea) (by omega)
    omega
  have hdiv : 2 ^ et / 2 ^ eb = 2 ^ (et - eb) := Nat.pow_div hbe (by omega)
  rw [hdiv] at hab
  have hae : ea ≤ et - eb := (Nat.pow_le_pow_iff_right (by omega)).mp hab
  have het : et ≤ 30 := by
    have : (2 : Nat) ^ et ≤ 2 ^ 30 := ht30
    exact (Nat.pow_le_pow_iff_right (by omega)).mp this
  have hea : ea ≤ 6 := by
    have : (2 : Nat) ^ ea ≤ 2 ^ 6 := ha64
    exact (Nat.pow_le_pow_iff_right (by omega)).mp this
  exact ⟨et, eb, ea, rfl, rfl, rfl, hbe, hae, het, hea⟩

/-- The derived geometry fields for a power-of-two configuration. -/
theorem derive_config_pow (et eb ea : Nat) (p : replacement_policy_t)
    (h1 : eb ≤ et) (h2 : ea ≤ et - eb) :
    (derive_config (2 ^ et) (2 ^ eb) (2 ^ ea) p).block_num = 2 ^ (et - eb) ∧
    (derive_config (2 ^ et) (2 ^ eb) (2 ^ ea) p).set_num = 2 ^ (et - eb - ea) ∧
    (derive_config (2 ^ et) (2 ^ eb) (2 ^ ea) p).bits_for_offset = eb ∧
    (derive_config (2 ^ et) (2 ^ eb) (2 ^ ea) p).bits_for_index = et - eb - ea := by
  have hbn : (2 : Nat) ^ et / 2 ^ eb = 2 ^ (et - eb) := Nat.pow_div h1 (by omega)
  have hsn : (2 : Nat) ^ (et - eb) / 2 ^ ea = 2 ^ (et - eb - ea) :=
    Nat.pow_div h2 (by omega)
  refine ⟨?_, ?_, ?_, ?_⟩ <;>
    simp [derive_config, hbn, hsn, LOG2_pow_toNat]

theorem GET_BITS_eq (a hip1 lo : Nat) :
    GET_BITS a hip1 lo = a % 2 ^ hip1 / 2 ^ lo := by
  simp [GET_BITS, BIT_MASK, Nat.shiftLeft_eq, Nat.shiftRight_eq_div_pow,
    Nat.one_mul, Nat.and_pow_two_sub_one_eq_mod]

theorem GET_OFFSET_eq (cfg : cache_config_t) (a : Nat) :
    GET_OFFSET cfg a = a % 2 ^ cfg.bits_for_offset := by
  simp [GET_OFFSET, GET_BITS_eq]

theorem GET_INDEX_eq (cfg : cache_config_t) (a : Nat) :
    GET_INDEX cfg a =
      a % 2 ^ (cfg.bits_for_offset + cfg.bits_for_index) / 2 ^ cfg.bits_for_offset := by
  simp [GET_INDEX, GET_BITS_eq]

theorem GET_TAG_eq (cfg : cache_config_t) (a : Nat) :
    GET_TAG cfg a =
      a % 2 ^ ADDR_WIDTH / 2 ^ (cfg.bits_for_offset + cfg.bits_for_index) := by
  simp [GET_TAG, GET_BITS_eq]

/-- The decoded index is below `2 ^ bits_for_index`. -/
theorem GET_INDEX_lt_pow (cfg : cache_config_t) (a : Nat) :
    GET_INDEX cfg a < 2 ^ cfg.bits_for_index := by
  rw [GET_INDEX_eq]
  rw [Nat.div_lt_iff_lt_mul (Nat.pow_pos (by omega))]
  calc a % 2 ^ (cfg.bits_for_offset + cfg.bits_for_index)
      < 2 ^ (cfg.bits_for_offset + cfg.bits_for_index) :=
        Nat.mod_lt _ (Nat.pow_pos (by omega))
    _ = 2 ^ cfg.bits_for_index * 2 ^ cfg.bits_for_offset := by
        rw [← Nat.pow_add]
        ring_nf

/-! ### Bit-field reconstruction (decode round trip) -/

theorem testBit_mul_pow_add_low (x y k j : Nat) (hj : j < k) :
    (x * 2 ^ k + y).testBit j = y.testBit j := by
  rw [Nat.testBit_to_div_mod, Nat.testBit_to_div_mod]
  have hk : 2 ^ k = 2 ^ j * 2 ^ (k - j) := by
    rw [← Nat.pow_add]
    congr 1
    omega
  have hrw : x * 2 ^ k + y = y + x * 2 ^ (k - j) * 2 ^ j := by
    rw [hk]
    ring
  rw [hrw, Nat.add_mul_div_right _ _ (Nat.pow_pos (by omega))]
  have h1 : x * 2 ^ (k - j) = x * 2 ^ (k - j - 1) * 2 := by
    have h2 : 2 ^ (k - j) = 2 ^ (k - j - 1) * 2 := by
      rw [← Nat.pow_succ]
      congr 1
      omega
    rw [h2]
    ring
  rw [h1, Nat.add_mul_mod_self_right]

theorem testBit_mul_pow_add_high (x y k j : Nat) (hy : y < 2 ^ k) (hj : k ≤ j) :
    (x * 2 ^ k + y).testBit j = x.testBit (j - k) := by
  rw [Nat.testBit_to_div_mod, Nat.testBit_to_div_mod]
  have hsplit : 2 ^ j = 2 ^ k * 2 ^ (j - k) := by
    rw [← Nat.pow_add]
    congr 1
    omega
  rw [hsplit, ← Nat.div_div_eq_div_mul]
  have hdiv : (x * 2 ^ k + y) / 2 ^ k = x := by
    rw [Nat.add_comm, Nat.add_mul_div_right _ _ (Nat.pow_pos (by omega)),
      Nat.div_eq_of_lt hy]
    omega
  rw [hdiv]

/-- Disjoint fields: or-ing a value shifted past `k` bits with a value
below `2 ^ k` is addition. -/
theorem mul_pow_lor_eq_add (x y k : Nat) (h : y < 2 ^ k) :
    x * 2 ^ k ||| y = x * 2 ^ k + y := by
  apply Nat.eq_of_testBit_eq
  intro j
  rw [Nat.testBit_or]
  rcases Nat.lt_or_ge j k with hj | hj
  · have hx : (x * 2 ^ k).testBit j = false := by
      have h0 := testBit_mul_pow_add_low x 0 k j hj
      simpa using h0
    rw [hx, testBit_mul_pow_add_low x y k j hj, Bool.false_or]
  · have hyb : y.testBit j = false :=
      Nat.testBit_lt_two_pow (lt_of_lt_of_le h (Nat.pow_le_pow_right (by omega) hj))
    have hx : (x * 2 ^ k).testBit j = x.testBit (j - k) := by
      have h0 := testBit_mul_pow_add_high x 0 k j (Nat.pow_pos (by omega)) hj
      simpa using h0
    rw [hx, hyb, testBit_mul_pow_add_high x y k j h hj, Bool.or_false]

/-- The generic decode/reconstruct identity over raw field widths:
`eb` offset bits, `K = eb + index bits`. -/
theorem decode_reconstruct_raw (eb K a : Nat) (hbK : eb ≤ K) :
    (a / 2 ^ K) <<< K ||| (a % 2 ^ K / 2 ^ eb) <<< eb ||| a % 2 ^ eb = a := by
  rw [Nat.shiftLeft_eq, Nat.shiftLeft_eq]
  have hBlt : a % 2 ^ K / 2 ^ eb * 2 ^ eb < 2 ^ K :=
    lt_of_le_of_lt (Nat.div_mul_le_self _ _) (Nat.mod_lt _ (Nat.pow_pos (by omega)))
  rw [mul_pow_lor_eq_add _ _ _ hBlt]
  have hfold : a / 2 ^ K * 2 ^ K + a % 2 ^ K / 2 ^ eb * 2 ^ eb =
      (a / 2 ^ K * 2 ^ (K - eb) + a % 2 ^ K / 2 ^ eb) * 2 ^ eb := by
    have hKsplit : 2 ^ K = 2 ^ (K - eb) * 2 ^ eb := by
      rw [← Nat.pow_add]
      congr 1
      omega
    calc a / 2 ^ K * 2 ^ K + a % 2 ^ K / 2 ^ eb * 2 ^ eb
        = a / 2 ^ K * (2 ^ (K - eb) * 2 ^ eb) + a % 2 ^ K / 2 ^ eb * 2 ^ eb := by
          rw [← hKsplit]
      _ = (a / 2 ^ K * 2 ^ (K - eb) + a % 2 ^ K / 2 ^ eb) * 2 ^ eb := by ring
  rw [hfold, mul_pow_lor_eq_add _ _ _ (Nat.mod_lt _ (Nat.pow_pos (a := 2) (n := eb) (by omega)))]
  have hmm : a % 2 ^ eb = a % 2 ^ K % 2 ^ eb :=
    (Nat.mod_mod_of_dvd a (pow_dvd_pow 2 hbK)).symm
  rw [hmm]
  have hinner : a % 2 ^ K / 2 ^ eb * 2 ^ eb + a % 2 ^ K % 2 ^ eb = a % 2 ^ K := by
    rw [Nat.mul_comm]
    exact Nat.div_add_mod _ _
  calc (a / 2 ^ K * 2 ^ (K - eb) + a % 2 ^ K / 2 ^ eb) * 2 ^ eb + a % 2 ^ K % 2 ^ eb
      = a / 2 ^ K * (2 ^ (K - eb) * 2 ^ eb) +
          (a % 2 ^ K / 2 ^ eb * 2 ^ eb + a % 2 ^ K % 2 ^ eb) := by ring
    _ = a / 2 ^ K * 2 ^ K + a % 2 ^ K := by
        rw [hinner]
        have hKK : 2 ^ (K - eb) * 2 ^ eb = 2 ^ K := by
          rw [← Nat.pow_add]
          congr 1
          omega
        rw [hKK]
    _ = a := by
        rw [Nat.mul_comm]
        exact Nat.div_add_mod _ _

/-! ### PLRU tree-walk machinery -/

theorem shiftRight_and_one (x n : Nat) :
    (x >>> n) &&& 1 = if x.testBit n then 1 else 0 := by
  rw [Nat.and_one_is_mod, Nat.testBit_to_div_mod, Nat.shiftRight_eq_div_pow]
  rcases Nat.mod_two_eq_zero_or_one (x / 2 ^ n) with h | h <;> simp [h]

theorem shiftRight_and_one_lt_two (x n : Nat) : (x >>> n) &&& 1 < 2 := by
  rw [shiftRight_and_one]
  split <;> omega

theorem shiftLeft_one_lor_bit (v b : Nat) (hb : b < 2) :
    v <<< 1 ||| b = 2 * v + b := by
  have h := mul_pow_lor_eq_add v b 1 (by omega)
  rw [Nat.shiftLeft_eq, h, Nat.pow_one]
  omega

theorem testBit_set_bit_self (s i : Nat) : (set_bit s i).testBit i = true := by
  rw [set_bit, Nat.shiftLeft_eq, Nat.one_mul, Nat.testBit_or,
    Nat.testBit_two_pow_self, Bool.or_true]

theorem testBit_set_bit_ne (s i j : Nat) (h : j ≠ i) :
    (set_bit s i).testBit j = s.testBit j := by
  rw [set_bit, Nat.shiftLeft_eq, Nat.one_mul, Nat.testBit_or,
    Nat.testBit_two_pow_of_ne (Ne.symm h), Bool.or_false]

theorem testBit_clear_bit_self (s i : Nat) (hi : i < 64) :
    (clear_bit s i).testBit i = false := by
  rw [clear_bit, Nat.shiftLeft_eq, Nat.one_mul, Nat.testBit_and, Nat.testBit_xor,
    Nat.testBit_two_pow_sub_one, Nat.testBit_two_pow_self]
  simp [hi]

theorem testBit_clear_bit_ne (s i j : Nat) (h : j ≠ i) (hj : j < 64) :
    (clear_bit s i).testBit j = s.testBit j := by
  rw [clear_bit, Nat.shiftLeft_eq, Nat.one_mul, Nat.testBit_and, Nat.testBit_xor,
    Nat.testBit_two_pow_sub_one, Nat.testBit_two_pow_of_ne (Ne.symm h)]
  simp [hj]

theorem set_bit_lt_two_pow (s i : Nat) (hs : s < 2 ^ 64) (hi : i < 64) :
    set_bit s i < 2 ^ 64 := by
  apply Nat.or_lt_two_pow hs
  rw [Nat.shiftLeft_eq, Nat.one_mul]
  exact Nat.pow_lt_pow_right (by omega) hi

theorem clear_bit_le (s i : Nat) : clear_bit s i ≤ s := Nat.and_le_left

theorem clear_bit_eq_of_not_testBit (s i : Nat) (hs : s < 2 ^ 64)
    (h : s.testBit i = false) : clear_bit s i = s := by
  apply Nat.eq_of_testBit_eq
  intro j
  rcases Nat.lt_or_ge j 64 with hj | hj
  · rcases eq_or_ne j i with rfl | hne
    · rw [testBit_clear_bit_self s j hj, h]
    · exact testBit_clear_bit_ne s i j hne hj
  · have hsj : s.testBit j = false :=
      Nat.testBit_lt_two_pow (lt_of_lt_of_le hs (Nat.pow_le_pow_right (by omega) hj))
    have hcj : (clear_bit s i).testBit j = false :=
      Nat.testBit_lt_two_pow
        (lt_of_le_of_lt (clear_bit_le s i)
          (lt_of_lt_of_le hs (Nat.pow_le_pow_right (by omega) hj)))
    rw [hsj, hcj]

theorem set_bit_eq_of_testBit (s i : Nat) (h : s.testBit i = true) :
    set_bit s i = s := by
  apply Nat.eq_of_testBit_eq
  intro j
  rcases eq_or_ne j i with rfl | hne
  · rw [testBit_set_bit_self, h]
  · exact testBit_set_bit_ne s i j hne

/-- The victim accumulator of the PLRU walk shifts in from the right:
the final victim is the start accumulator shifted past the remaining
levels plus a pure part. -/
theorem find_plru_loop_acc (l : Nat) : ∀ i s v,
    find_plru_loop l i s v =
      (v * 2 ^ l + (find_plru_loop l i s 0).1, (find_plru_loop l i s 0).2) := by
  induction l with
  | zero =>
    intro i s v
    simp [find_plru_loop]
  | succ l ih =>
    intro i s v
    simp only [find_plru_loop]
    have hblt := shiftRight_and_one_lt_two s i
    rw [shiftLeft_one_lor_bit v _ hblt, shiftLeft_one_lor_bit 0 _ hblt]
    rw [ih (2 * i + 1 + ((s >>> i) &&& 1)) _ (2 * v + ((s >>> i) &&& 1)),
      ih (2 * i + 1 + ((s >>> i) &&& 1)) _ (2 * 0 + ((s >>> i) &&& 1))]
    rw [Prod.mk.injEq]
    refine ⟨?_, rfl⟩
    rw [Nat.pow_succ]
    ring

/-- The pure part of the PLRU victim is below `2 ^ levels`. -/
theorem find_plru_loop_lt (l : Nat) : ∀ i s,
    (find_plru_loop l i s 0).1 < 2 ^ l := by
  induction l with
  | zero =>
    intro i s
    simp [find_plru_loop]
  | succ l ih =>
    intro i s
    simp only [find_plru_loop]
    have hblt := shiftRight_and_one_lt_two s i
    rw [shiftLeft_one_lor_bit 0 _ hblt]
    rw [find_plru_loop_acc l _ _ (2 * 0 + ((s >>> i) &&& 1))]
    have h1 : (2 * 0 + ((s >>> i) &&& 1)) * 2 ^ l ≤ 1 * 2 ^ l :=
      Nat.mul_le_mul_right _ (by omega)
    have h2 := ih (2 * (2 * i + 1 + ((s >>> i) &&& 1)) + 1 +
      (((if ((s >>> i) &&& 1) = 1 then clear_bit s i else set_bit s i) >>>
        (2 * i + 1 + ((s >>> i) &&& 1))) &&& 1)) (if ((s >>> i) &&& 1) = 1 then clear_bit s i else set_bit s i)
    have h3 := ih (2 * i + 1 + ((s >>> i) &&& 1))
      (if ((s >>> i) &&& 1) = 1 then clear_bit s i else set_bit s i)
    calc (2 * 0 + ((s >>> i) &&& 1)) * 2 ^ l +
        (find_plru_loop l (2 * i + 1 + ((s >>> i) &&& 1))
          (if ((s >>> i) &&& 1) = 1 then clear_bit s i else set_bit s i) 0).1
        < 1 * 2 ^ l + 2 ^ l := by
          have := h3
          omega
      _ = 2 ^ (l + 1) := by
          rw [Nat.pow_succ]
          ring

/-- Bits at positions below the current node index are never touched by
the PLRU walk (node indices only grow along the walk). -/
theorem find_plru_loop_testBit_low (l : Nat) : ∀ i s v j, j < i → j < 64 →
    ((find_plru_loop l i s v).2).testBit j = s.testBit j := by
  induction l with
  | zero =>
    intro i s v j _ _
    simp [find_plru_loop]
  | succ l ih =>
    intro i s v j hji hj64
    simp only [find_plru_loop]
    rw [ih _ _ _ j (by omega) hj64]
    split
    · exact testBit_clear_bit_ne s i j (by omega) hj64
    · exact testBit_set_bit_ne s i j (by omega)

/-- The PLRU walk keeps `plru_bits` a 64-bit value as long as all node
indices on the path stay below 64, which the bound
`(i + 2) * 2 ^ l ≤ 128` guarantees. -/
theorem find_plru_loop_bits_lt (l : Nat) : ∀ i s v, s < 2 ^ 64 →
    (i + 2) * 2 ^ l ≤ 128 → (find_plru_loop l i s v).2 < 2 ^ 64 := by
  induction l with
  | zero =>
    intro i s v hs _
    simpa [find_plru_loop] using hs
  | succ l ih =>
    intro i s v hs hbound
    simp only [find_plru_loop]
    have h21 : (2 : Nat) ^ 1 ≤ 2 ^ (l + 1) := Nat.pow_le_pow_right (by omega) (by omega)
    rw [Nat.pow_one] at h21
    have hmul : (i + 2) * 2 ≤ (i + 2) * 2 ^ (l + 1) := Nat.mul_le_mul_left _ h21
    have hi64 : i < 64 := by omega
    have hb := shiftRight_and_one_lt_two s i
    have hs' : (if ((s >>> i) &&& 1) = 1 then clear_bit s i else set_bit s i) < 2 ^ 64 := by
      split
      · exact lt_of_le_of_lt (clear_bit_le s i) hs
      · exact set_bit_lt_two_pow s i hs hi64
    apply ih _ _ _ hs'
    calc (2 * i + 1 + ((s >>> i) &&& 1) + 2) * 2 ^ l
        ≤ 2 * (i + 2) * 2 ^ l := Nat.mul_le_mul_right _ (by omega)
      _ = (i + 2) * 2 ^ (l + 1) := by
          rw [Nat.pow_succ]
          ring
      _ ≤ 128 := hbound

/-- The PLRU victim-selection walk of the source agrees with the walk
described by the specification. -/
theorem find_plru_loop_eq_spec (l : Nat) : ∀ i s,
    find_plru_loop l i s 0 = plru_select_spec l i s := by
  induction l with
  | zero =>
    intro i s
    simp [find_plru_loop, plru_select_spec]
  | succ l ih =>
    intro i s
    simp only [find_plru_loop, plru_select_spec]
    cases hsi : s.testBit i with
    | true =>
      have hbit : (s >>> i) &&& 1 = 1 := by
        rw [shiftRight_and_one, hsi]
        simp
      rw [hbit, shiftLeft_one_lor_bit 0 1 (by omega)]
      simp only [hsi, if_pos rfl]
      rw [find_plru_loop_acc l _ _ (2 * 0 + 1), ih]
      norm_num
    | false =>
      have hbit : (s >>> i) &&& 1 = 0 := by
        rw [shiftRight_and_one, hsi]
        simp
      rw [hbit, shiftLeft_one_lor_bit 0 0 (by omega)]
      norm_num
      rw [ih]

/-- The PLRU hit-update walk of the source agrees with the walk
described by the specification. -/
theorem update_plru_loop_eq_spec (l : Nat) : ∀ i s w,
    update_plru_loop l i s w = plru_on_hit_spec l i s w := by
  induction l with
  | zero =>
    intro i s w
    simp [update_plru_loop, plru_on_hit_spec]
  | succ l ih =>
    intro i s w
    simp only [update_plru_loop, plru_on_hit_spec, write_bit]
    cases hw : w.testBit l with
    | true =>
      have hbit : (w >>> l) &&& 1 = 1 := by
        rw [shiftRight_and_one, hw]
        simp
      rw [hbit]
      norm_num
      exact ih _ _ _
    | false =>
      have hbit : (w >>> l) &&& 1 = 0 := by
        rw [shiftRight_and_one, hw]
        simp
      rw [hbit]
      norm_num
      exact ih _ _ _

theorem find_and_updata_plru_victim_way_pow (e s : Nat) (he : 1 ≤ e) :
    find_and_updata_plru_victim_way (2 ^ e) s = find_plru_loop e 0 s 0 := by
  have hge : (2 : Nat) ^ 1 ≤ 2 ^ e := Nat.pow_le_pow_right (by omega) he
  rw [Nat.pow_one] at hge
  rw [find_and_updata_plru_victim_way, if_neg (by omega), LOG2_pow_toNat]

theorem update_plru_victim_way_pow (e s w : Nat) (he : 1 ≤ e) :
    update_plru_victim_way (2 ^ e) s w = update_plru_loop e 0 s w := by
  have hge : (2 : Nat) ^ 1 ≤ 2 ^ e := Nat.pow_le_pow_right (by omega) he
  rw [Nat.pow_one] at hge
  rw [update_plru_victim_way, if_neg (by omega), LOG2_pow_toNat]

/-- The hit-update walk reads only the low `l` bits of the way index. -/
theorem update_plru_loop_mod (l : Nat) : ∀ i s w,
    update_plru_loop l i s (w % 2 ^ l) = update_plru_loop l i s w := by
  induction l with
  | zero =>
    intro i s w
    simp [update_plru_loop]
  | succ l ih =>
    intro i s w
    simp only [update_plru_loop]
    have hd : ((w % 2 ^ (l + 1)) >>> l) &&& 1 = (w >>> l) &&& 1 := by
      rw [shiftRight_and_one, shiftRight_and_one, Nat.testBit_mod_two_pow]
      simp
    rw [hd]
    have hmm : w % 2 ^ (l + 1) % 2 ^ l = w % 2 ^ l :=
      Nat.mod_mod_of_dvd w (pow_dvd_pow 2 (by omega))
    calc update_plru_loop l (2 * i + 1 + ((w >>> l) &&& 1))
          (if ((w >>> l) &&& 1) = 1 then clear_bit s i else set_bit s i) (w % 2 ^ (l + 1))
        = update_plru_loop l (2 * i + 1 + ((w >>> l) &&& 1))
            (if ((w >>> l) &&& 1) = 1 then clear_bit s i else set_bit s i)
            (w % 2 ^ (l + 1) % 2 ^ l) := (ih _ _ _).symm
      _ = update_plru_loop l (2 * i + 1 + ((w >>> l) &&& 1))
            (if ((w >>> l) &&& 1) = 1 then clear_bit s i else set_bit s i) (w % 2 ^ l) := by
          rw [hmm]
      _ = update_plru_loop l (2 * i + 1 + ((w >>> l) &&& 1))
            (if ((w >>> l) &&& 1) = 1 then clear_bit s i else set_bit s i) w := ih _ _ _

theorem head_div (b p l : Nat) (hp : p < 2 ^ l) :
    ((2 * 0 + b) * 2 ^ l + p) / 2 ^ l = b := by
  rw [Nat.add_comm, Nat.add_mul_div_right _ _ (Nat.pow_pos (by omega)),
    Nat.div_eq_of_lt hp]
  omega

theorem head_bit (b p l : Nat) (hb : b < 2) (hp : p < 2 ^ l) :
    (((2 * 0 + b) * 2 ^ l + p) >>> l) &&& 1 = b := by
  rw [Nat.and_one_is_mod, Nat.shiftRight_eq_div_pow, Nat.add_comm,
    Nat.add_mul_div_right _ _ (Nat.pow_pos (by omega)), Nat.div_eq_of_lt hp]
  omega

theorem update_plru_loop_drop_head (l i s b p : Nat) (hp : p < 2 ^ l) :
    update_plru_loop l i s ((2 * 0 + b) * 2 ^ l + p) = update_plru_loop l i s p := by
  have hmod : ((2 * 0 + b) * 2 ^ l + p) % 2 ^ l = p := by
    rw [Nat.add_comm, Nat.add_mul_mod_self_right, Nat.mod_eq_of_lt hp]
  calc update_plru_loop l i s ((2 * 0 + b) * 2 ^ l + p)
      = update_plru_loop l i s (((2 * 0 + b) * 2 ^ l + p) % 2 ^ l) :=
        (update_plru_loop_mod l i s _).symm
    _ = update_plru_loop l i s p := by rw [hmod]

/-- The most-significant decision bit of the selected victim is the bit
that was read at the root. -/
theorem find_plru_loop_victim_head (l i s : Nat) :
    (find_plru_loop (l + 1) i s 0).1 / 2 ^ l = (s >>> i) &&& 1 := by
  simp only [find_plru_loop]
  rw [shiftLeft_one_lor_bit 0 _ (shiftRight_and_one_lt_two s i)]
  rw [find_plru_loop_acc l _ _ (2 * 0 + ((s >>> i) &&& 1))]
  exact head_div _ _ _ (find_plru_loop_lt l _ _)

/-- After a full victim-selection walk the root bit has been flipped,
and no later step of the walk touches it again. -/
theorem find_plru_loop_final_root (l i s : Nat) (hi : i < 64) :
    ((find_plru_loop (l + 1) i s 0).2).testBit i = !(s.testBit i) := by
  simp only [find_plru_loop]
  rw [find_plru_loop_testBit_low l _ _ _ i (by omega) hi]
  cases hsi : s.testBit i with
  | true =>
    have hbit : (s >>> i) &&& 1 = 1 := by
      rw [shiftRight_and_one, hsi]
      simp
    rw [hbit]
    simp [testBit_clear_bit_self s i hi]
  | false =>
    have hbit : (s >>> i) &&& 1 = 0 := by
      rw [shiftRight_and_one, hsi]
      simp
    rw [hbit]
    simp [testBit_set_bit_self s i]

/-- Core of the anti-thrash property: two back-to-back victim
selections from the root read complementary root bits and hence produce
way indices with different leading decision bits. -/
theorem find_plru_loop_anti_thrash (l s : Nat) :
    (find_plru_loop (l + 1) 0 ((find_plru_loop (l + 1) 0 s 0).2) 0).1 ≠
      (find_plru_loop (l + 1) 0 s 0).1 := by
  intro heq
  have h1 := find_plru_loop_victim_head l 0 s
  have h2 := find_plru_loop_victim_head l 0 ((find_plru_loop (l + 1) 0 s 0).2)
  have h3 := find_plru_loop_final_root l 0 s (by omega)
  rw [heq, h1] at h2
  rw [shiftRight_and_one, shiftRight_and_one, h3] at h2
  cases hsi : s.testBit 0 <;> rw [hsi] at h2 <;> simp at h2

/-- Unfolding one level of the victim-selection walk into the leading
decision bit and the pure remainder of the walk. -/
theorem find_plru_loop_succ_unfold (l i s : Nat) :
    find_plru_loop (l + 1) i s 0 =
      ((2 * 0 + ((s >>> i) &&& 1)) * 2 ^ l +
        (find_plru_loop l (2 * i + 1 + ((s >>> i) &&& 1))
          (if ((s >>> i) &&& 1) = 1 then clear_bit s i else set_bit s i) 0).1,
        (find_plru_loop l (2 * i + 1 + ((s >>> i) &&& 1))
          (if ((s >>> i) &&& 1) = 1 then clear_bit s i else set_bit s i) 0).2) := by
  simp only [find_plru_loop]
  rw [shiftLeft_one_lor_bit 0 _ (shiftRight_and_one_lt_two s i)]
  rw [find_plru_loop_acc l _ _ (2 * 0 + ((s >>> i) &&& 1))]

/-- Core of the path-consistency property: running the hit-update walk
with the way just selected as victim, on the state the selection
produced, rewrites exactly the bits the selection wrote and leaves the
state unchanged. -/
theorem find_then_update_plru (l : Nat) : ∀ i s, s < 2 ^ 64 →
    (i + 2) * 2 ^ l ≤ 128 →
    update_plru_loop l i ((find_plru_loop l i s 0).2) ((find_plru_loop l i s 0).1) =
      (find_plru_loop l i s 0).2 := by
  induction l with
  | zero =>
    intro i s _ _
    simp [find_plru_loop, update_plru_loop]
  | succ l ih =>
    intro i s hs hbound
    have h21 : (2 : Nat) ^ 1 ≤ 2 ^ (l + 1) := Nat.pow_le_pow_right (by omega) (by omega)
    rw [Nat.pow_one] at h21
    have hmul : (i + 2) * 2 ≤ (i + 2) * 2 ^ (l + 1) := Nat.mul_le_mul_left _ h21
    have hi64 : i < 64 := by omega
    have hb := shiftRight_and_one_lt_two s i
    have hs0 : (if ((s >>> i) &&& 1) = 1 then clear_bit s i else set_bit s i) < 2 ^ 64 := by
      split
      · exact lt_of_le_of_lt (clear_bit_le s i) hs
      · exact set_bit_lt_two_pow s i hs hi64
    have hbound' : (2 * i + 1 + ((s >>> i) &&& 1) + 2) * 2 ^ l ≤ 128 := by
      calc (2 * i + 1 + ((s >>> i) &&& 1) + 2) * 2 ^ l
          ≤ 2 * (i + 2) * 2 ^ l := Nat.mul_le_mul_right _ (by omega)
        _ = (i + 2) * 2 ^ (l + 1) := by
            rw [Nat.pow_succ]
            ring
        _ ≤ 128 := hbound
    have hroot : ((find_plru_loop (l + 1) i s 0).2).testBit i = !(s.testBit i) :=
      find_plru_loop_final_root l i s hi64
    have hsf : (find_plru_loop (l + 1) i s 0).2 < 2 ^ 64 :=
      find_plru_loop_bits_lt (l + 1) i s 0 hs hbound
    rw [find_plru_loop_succ_unfold l i s] at hroot hsf ⊢
    dsimp only at hroot hsf ⊢
    simp only [update_plru_loop]
    rw [head_bit _ _ _ hb (find_plru_loop_lt l _ _)]
    rw [update_plru_loop_drop_head l _ _ _ _ (find_plru_loop_lt l _ _)]
    have hwrite : (if ((s >>> i) &&& 1) = 1
        then clear_bit ((find_plru_loop l (2 * i + 1 + ((s >>> i) &&& 1))
          (if ((s >>> i) &&& 1) = 1 then clear_bit s i else set_bit s i) 0).2) i
        else set_bit ((find_plru_loop l (2 * i + 1 + ((s >>> i) &&& 1))
          (if ((s >>> i) &&& 1) = 1 then clear_bit s i else set_bit s i) 0).2) i) =
        (find_plru_loop l (2 * i + 1 + ((s >>> i) &&& 1))
          (if ((s >>> i) &&& 1) = 1 then clear_bit s i else set_bit s i) 0).2 := by
      cases hsi : s.testBit i with
      | true =>
        have hbit : (s >>> i) &&& 1 = 1 := by
          rw [shiftRight_and_one, hsi]
          simp
        rw [hbit] at hroot hsf ⊢
        rw [hsi] at hroot
        simp only [if_pos rfl] at hroot hsf ⊢
        exact clear_bit_eq_of_not_testBit _ i hsf (by simpa using hroot)
      | false =>
        have hbit : (s >>> i) &&& 1 = 0 := by
          rw [shiftRight_and_one, hsi]
          simp
        rw [hbit] at hroot hsf ⊢
        rw [hsi] at hroot
        simp only [if_neg (by omega : ¬(0 : Nat) = 1)] at hroot hsf ⊢
        exact set_bit_eq_of_testBit _ i (by simpa using hroot)
    rw [hwrite]
    exact ih _ _ hs0 hbound'

/-! ### Lookup, list and FIFO machinery -/

theorem hit_cond_iff (tag : Nat) (a : cache_line_t) :
    (tag == a.tag && a.valid) = true ↔ (a.valid = true ∧ a.tag = tag) := by
  rw [Bool.and_eq_true, beq_iff_eq]
  constructor
  · rintro ⟨h1, h2⟩
    exact ⟨h2, h1.symm⟩
  · rintro ⟨h1, h2⟩
    exact ⟨h2.symm, h1⟩

theorem find_hit_way_none_iff (tag : Nat) (ls : List cache_line_t) :
    find_hit_way tag ls = none ↔ ∀ l ∈ ls, ¬(l.valid = true ∧ l.tag = tag) := by
  induction ls with
  | nil => simp [find_hit_way]
  | cons a ls ih =>
    simp only [find_hit_way, List.mem_cons]
    by_cases h : (tag == a.tag && a.valid) = true
    · rw [if_pos h]
      constructor
      · intro hc
        simp at hc
      · intro hall
        exact absurd ((hit_cond_iff tag a).mp h) (hall a (Or.inl rfl))
    · rw [if_neg h]
      have hna : ¬(a.valid = true ∧ a.tag = tag) :=
        fun hm => h ((hit_cond_iff tag a).mpr hm)
      constructor
      · intro hc l hl
        have hnone : find_hit_way tag ls = none := by
          cases hfw : find_hit_way tag ls
          · rfl
          · rw [hfw] at hc
            simp at hc
        rcases hl with rfl | hl
        · exact hna
        · exact (ih.mp hnone) l hl
      · intro hall
        have hn : find_hit_way tag ls = none := ih.mpr (fun l hl => hall l (Or.inr hl))
        rw [hn]
        rfl

theorem find_hit_way_some_exists (tag : Nat) (ls : List cache_line_t) (w : Nat)
    (h : find_hit_way tag ls = some w) :
    ∃ l ∈ ls, l.valid = true ∧ l.tag = tag := by
  induction ls generalizing w with
  | nil => simp [find_hit_way] at h
  | cons a ls ih =>
    simp only [find_hit_way] at h
    by_cases hc : (tag == a.tag && a.valid) = true
    · exact ⟨a, List.mem_cons_self a ls, (hit_cond_iff tag a).mp hc⟩
    · rw [if_neg hc] at h
      cases hfw : find_hit_way tag ls with
      | none =>
        rw [hfw] at h
        simp at h
      | some w' =>
        obtain ⟨l, hl, hm⟩ := ih w' hfw
        exact ⟨l, List.mem_cons_of_mem a hl, hm⟩

theorem getD_set_ne {α : Type _} (l : List α) (i j : Nat) (a d : α) (h : j ≠ i) :
    (l.set i a).getD j d = l.getD j d := by
  rw [List.getD_eq_getElem?_getD, List.getD_eq_getElem?_getD,
    List.getElem?_set_ne (Ne.symm h)]

theorem getD_set_self {α : Type _} (l : List α) (i : Nat) (a d : α)
    (h : i < l.length) :
    (l.set i a).getD i d = a := by
  rw [List.getD_eq_getElem?_getD, List.getElem?_set_self h]
  rfl

theorem fifo_ptr_iter_mod (a : Nat) (ha : 0 < a) : ∀ k p, p < a →
    fifo_ptr_iter a k p = (p + k) % a := by
  intro k
  induction k with
  | zero =>
    intro p hp
    simp [fifo_ptr_iter, Nat.mod_eq_of_lt hp]
  | succ k ih =>
    intro p hp
    simp only [fifo_ptr_iter, find_and_update_fifo_victim_way]
    rw [ih ((p + 1) % a) (Nat.mod_lt _ ha), Nat.mod_add_mod]
    congr 1
    omega

theorem select_victim_cache_line (cfg : cache_config_t) (r : Nat) (s : cache_set_t) :
    ((select_victim cfg r s).2).cache_line = s.cache_line := by
  cases hp : cfg.policy <;> simp [select_victim, hp]

theorem select_victim_lt (cfg : cache_config_t) (r : Nat) (s : cache_set_t)
    (hpow : is_pow_2 cfg.associativity = true)
    (hfifo : s.fifo_pointer < cfg.associativity) :
    (select_victim cfg r s).1 < cfg.associativity := by
  obtain ⟨e, he⟩ := exists_pow_of_is_pow_2 hpow
  have hapos : 0 < cfg.associativity := by
    rw [he]
    exact Nat.pow_pos (by omega)
  cases hp : cfg.policy with
  | POLICY_PLRU =>
    simp only [select_victim, hp]
    rcases Nat.eq_zero_or_pos e with rfl | he1
    · rw [he] at hapos ⊢
      norm_num [find_and_updata_plru_victim_way]
    · rw [he, find_and_updata_plru_victim_way_pow _ _ he1]
      exact find_plru_loop_lt e 0 s.plru_bits
  | POLICY_FIFO =>
    simpa [select_victim, hp, find_and_update_fifo_victim_way] using hfifo
  | POLICY_RANDOM =>
    simp only [select_victim, hp, find_random_victim_way]
    exact Nat.mod_lt _ hapos

theorem GET_INDEX_lt_set_num (t b a : Nat) (p : replacement_policy_t) (addr : Nat)
    (hv : valid_params t b a) :
    GET_INDEX (derive_config t b a p) addr < (derive_config t b a p).set_num := by
  obtain ⟨et, eb, ea, rfl, rfl, rfl, h1, h2, _, _⟩ := valid_params_unpack hv
  obtain ⟨_, hsn, _, hbi⟩ := derive_config_pow et eb ea p h1 h2
  calc GET_INDEX (derive_config (2 ^ et) (2 ^ eb) (2 ^ ea) p) addr
      < 2 ^ (derive_config (2 ^ et) (2 ^ eb) (2 ^ ea) p).bits_for_index :=
        GET_INDEX_lt_pow _ _
    _ = 2 ^ (et - eb - ea) := by rw [hbi]
    _ = (derive_config (2 ^ et) (2 ^ eb) (2 ^ ea) p).set_num := hsn.symm

/-! ### Claim theorems -/

/-- Counterexample to claim C1: with `total_size = 6` (not a power of
two), `block_size = 2` and `associativity = 1`, the run does fail with
`ConfigError::NotPowerOfTwo`, but the store has already been allocated
at that point — `init_cache` allocates (lines 174-196) before it calls
`check_config` (line 204), contradicting "the run aborts without the
store ever having been allocated". -/
theorem C1_counterexample :
    (init_cache 6 2 1 POLICY_PLRU).error = some ConfigError.NotPowerOfTwo ∧
      ((init_cache 6 2 1 POLICY_PLRU).store).isSome = true := by
  decide

/-- C1 (amended): configuration validation does not precede store
allocation.  For every run with nonzero block size and associativity
whose configuration fails validation, the corresponding `ConfigError`
is reported and the run aborts, but the store (the array of sets and
their line arrays) has already been allocated at that point:
`init_cache` allocates the store first and only then calls
`check_config`. -/
theorem C1_validation_after_allocation (t b a : Nat) (p : replacement_policy_t)
    (e : ConfigError) (_hb : 1 ≤ b) (_ha : 1 ≤ a)
    (hfail : check_config (derive_config t b a p) = some e) :
    (init_cache t b a p).error = some e ∧
      ((init_cache t b a p).store).isSome = true := by
  constructor
  · simpa [init_cache] using hfail
  · simp [init_cache]

theorem C1_validation_after_allocation_witness :
    (1 ≤ 2) ∧ (1 ≤ 1) ∧
      check_config (derive_config 6 2 1 POLICY_PLRU) =
        some ConfigError.NotPowerOfTwo ∧
      ((init_cache 6 2 1 POLICY_PLRU).error = some ConfigError.NotPowerOfTwo ∧
        ((init_cache 6 2 1 POLICY_PLRU).store).isSome = true) :=
  ⟨by decide, by decide, by decide,
    C1_validation_after_allocation 6 2 1 POLICY_PLRU ConfigError.NotPowerOfTwo
      (by decide) (by decide) (by decide)⟩

/-- C3: for a valid configuration with associativity `2 ^ e > 1` (so
the walk has `e = log2 associativity` levels) and any `plru_bits` state,
the source PLRU `select_victim` equals the specified walk — start at the
root (node 0), read the current node's bit, flip it, descend to child
`2 * i + 1 + bit`, concatenate the read bits most-significant first —
and for associativity 1 it returns way 0 without touching
`plru_bits`. -/
theorem C3_plru_select_follows_spec (e s : Nat) (he : 1 ≤ e) :
    find_and_updata_plru_victim_way (2 ^ e) s = plru_select_spec e 0 s ∧
      find_and_updata_plru_victim_way 1 s = (0, s) := by
  refine ⟨?_, rfl⟩
  rw [find_and_updata_plru_victim_way_pow e s he]
  exact find_plru_loop_eq_spec e 0 s

theorem C3_plru_select_follows_spec_witness :
    (1 ≤ 2) ∧
      (find_and_updata_plru_victim_way (2 ^ 2) 5 = plru_select_spec 2 0 5 ∧
        find_and_updata_plru_victim_way 1 5 = (0, 5)) :=
  ⟨by decide, C3_plru_select_follows_spec 2 5 (by decide)⟩

/-- C4: for a valid configuration with associativity `2 ^ e > 1`, any
`plru_bits` state and any hit way `w < 2 ^ e`, the source PLRU `on_hit`
equals the specified walk — `e = log2 associativity` levels from the
root, direction = next most-significant decision bit of `w`, write
`1 - direction` into the current node, descend to child
`2 * i + 1 + direction` — and for associativity 1 it is a no-op. -/
theorem C4_plru_on_hit_follows_spec (e s w : Nat) (he : 1 ≤ e) (_hw : w < 2 ^ e) :
    update_plru_victim_way (2 ^ e) s w = plru_on_hit_spec e 0 s w ∧
      update_plru_victim_way 1 s w = s := by
  refine ⟨?_, rfl⟩
  rw [update_plru_victim_way_pow e s w he]
  exact update_plru_loop_eq_spec e 0 s w

theorem C4_plru_on_hit_follows_spec_witness :
    (1 ≤ 2) ∧ (3 < 2 ^ 2) ∧
      (update_plru_victim_way (2 ^ 2) 6 3 = plru_on_hit_spec 2 0 6 3 ∧
        update_plru_victim_way 1 6 3 = 6) :=
  ⟨by decide, by decide, C4_plru_on_hit_follows_spec 2 6 3 (by decide) (by decide)⟩

/-- C5: PLRU anti-thrash — with associativity `2 ^ e ≥ 2`, two
consecutive victim selections from the same set with no intervening hit
never return the same way (the first selection flips the root bit, so
the second walk leaves the root in the other direction). -/
theorem C5_plru_anti_thrash (e s : Nat) (he : 1 ≤ e) :
    (find_and_updata_plru_victim_way (2 ^ e)
        ((find_and_updata_plru_victim_way (2 ^ e) s).2)).1 ≠
      (find_and_updata_plru_victim_way (2 ^ e) s).1 := by
  rw [find_and_updata_plru_victim_way_pow e s he,
    find_and_updata_plru_victim_way_pow e _ he]
  obtain ⟨l, rfl⟩ : ∃ l, e = l + 1 := ⟨e - 1, by omega⟩
  exact find_plru_loop_anti_thrash l s

theorem C5_plru_anti_thrash_witness :
    (1 ≤ 1) ∧
      (find_and_updata_plru_victim_way (2 ^ 1)
          ((find_and_updata_plru_victim_way (2 ^ 1) 0).2)).1 ≠
        (find_and_updata_plru_victim_way (2 ^ 1) 0).1 :=
  ⟨by decide, C5_plru_anti_thrash 1 0 (by decide)⟩

/-- C10: PLRU path consistency — for associativity `2 ^ e` with
`1 ≤ e ≤ 6` (i.e. `2 ≤ associativity ≤ 64`) and any 64-bit `plru_bits`
state, running `on_hit` with the way just returned by `select_victim`,
on the state `select_victim` produced, leaves `plru_bits` unchanged:
the two walks follow the same path and write the same bits. -/
theorem C10_plru_path_consistency (e s : Nat) (he : 1 ≤ e) (he6 : e ≤ 6)
    (hs : s < 2 ^ 64) :
    update_plru_victim_way (2 ^ e) ((find_and_updata_plru_victim_way (2 ^ e) s).2)
        ((find_and_updata_plru_victim_way (2 ^ e) s).1) =
      (find_and_updata_plru_victim_way (2 ^ e) s).2 := by
  rw [find_and_updata_plru_victim_way_pow e s he,
    update_plru_victim_way_pow _ _ _ he]
  apply find_then_update_plru e 0 s hs
  calc (0 + 2) * 2 ^ e ≤ 2 * 2 ^ 6 := by
        have h6 : (2 : Nat) ^ e ≤ 2 ^ 6 := Nat.pow_le_pow_right (by omega) he6
        omega
    _ = 128 := by norm_num

theorem C10_plru_path_consistency_witness :
    (1 ≤ 2) ∧ (2 ≤ 6) ∧ (9 < 2 ^ 64) ∧
      update_plru_victim_way (2 ^ 2) ((find_and_updata_plru_victim_way (2 ^ 2) 9).2)
          ((find_and_updata_plru_victim_way (2 ^ 2) 9).1) =
        (find_and_updata_plru_victim_way (2 ^ 2) 9).2 :=
  ⟨by decide, by decide, by decide,
    C10_plru_path_consistency 2 9 (by decide) (by decide) (by decide)⟩

/-- C7: decode round trip — for every valid configuration and every
`ADDR_WIDTH`-bit address, the value
`(tag << (bits_for_offset + bits_for_index)) | (index << bits_for_offset) | offset`
built from the decoded fields reproduces the original address. -/
theorem C7_decode_round_trip (t b a : Nat) (p : replacement_policy_t) (addr : Nat)
    (hv : valid_params t b a) (haddr : addr < 2 ^ ADDR_WIDTH) :
    (GET_TAG (derive_config t b a p) addr <<<
        ((derive_config t b a p).bits_for_offset +
          (derive_config t b a p).bits_for_index)) |||
      (GET_INDEX (derive_config t b a p) addr <<<
        (derive_config t b a p).bits_for_offset) |||
      GET_OFFSET (derive_config t b a p) addr = addr := by
  obtain ⟨et, eb, ea, rfl, rfl, rfl, h1, h2, het, _⟩ := valid_params_unpack hv
  obtain ⟨_, _, hbo, hbi⟩ := derive_config_pow et eb ea p h1 h2
  rw [GET_TAG_eq, GET_INDEX_eq, GET_OFFSET_eq, hbo, hbi]
  rw [Nat.mod_eq_of_lt haddr]
  exact decode_reconstruct_raw eb (eb + (et - eb - ea)) addr (by omega)

theorem C7_decode_round_trip_witness :
    valid_params 16 4 1 ∧ 74565 < 2 ^ ADDR_WIDTH ∧
      (GET_TAG (derive_config 16 4 1 POLICY_PLRU) 74565 <<<
          ((derive_config 16 4 1 POLICY_PLRU).bits_for_offset +
            (derive_config 16 4 1 POLICY_PLRU).bits_for_index)) |||
        (GET_INDEX (derive_config 16 4 1 POLICY_PLRU) 74565 <<<
          (derive_config 16 4 1 POLICY_PLRU).bits_for_offset) |||
        GET_OFFSET (derive_config 16 4 1 POLICY_PLRU) 74565 = 74565 :=
  ⟨by decide, by decide,
    C7_decode_round_trip 16 4 1 POLICY_PLRU 74565 (by decide) (by decide)⟩

/-- C8: statistics — every access increments `total_access_times` by
exactly one, increments `total_hit_times` by zero (miss) or one (hit),
and preserves the invariant `total_hit_times ≤ total_access_times`. -/
theorem C8_statistics (cfg : cache_config_t) (r addr : Nat) (st : sim_state_t) :
    (access_cache cfg r addr st).total_access_times = st.total_access_times + 1 ∧
      ((access_cache cfg r addr st).total_hit_times = st.total_hit_times ∨
        (access_cache cfg r addr st).total_hit_times = st.total_hit_times + 1) ∧
      (st.total_hit_times ≤ st.total_access_times →
        (access_cache cfg r addr st).total_hit_times ≤
          (access_cache cfg r addr st).total_access_times) := by
  simp only [access_cache]
  cases hfw : find_hit_way (GET_TAG cfg addr)
      ((set_of st (GET_INDEX cfg addr)).cache_line) with
  | some w =>
    refine ⟨rfl, Or.inr rfl, ?_⟩
    intro h
    dsimp only
    omega
  | none =>
    refine ⟨rfl, Or.inl rfl, ?_⟩
    intro h
    dsimp only
    omega

theorem C8_statistics_witness :
    (access_cache (derive_config 8 4 2 POLICY_FIFO) 0 0
        { cache := [{ cache_line := [default, default], plru_bits := 0, fifo_pointer := 0 }]
          total_access_times := 0
          total_hit_times := 0 }).total_access_times = 0 + 1 ∧
      ((access_cache (derive_config 8 4 2 POLICY_FIFO) 0 0
          { cache := [{ cache_line := [default, default], plru_bits := 0, fifo_pointer := 0 }]
            total_access_times := 0
            total_hit_times := 0 }).total_hit_times = 0 ∨
        (access_cache (derive_config 8 4 2 POLICY_FIFO) 0 0
          { cache := [{ cache_line := [default, default], plru_bits := 0, fifo_pointer := 0 }]
            total_access_times := 0
            total_hit_times := 0 }).total_hit_times = 0 + 1) ∧
      (0 ≤ 0 →
        (access_cache (derive_config 8 4 2 POLICY_FIFO) 0 0
          { cache := [{ cache_line := [default, default], plru_bits := 0, fifo_pointer := 0 }]
            total_access_times := 0
            total_hit_times := 0 }).total_hit_times ≤
          (access_cache (derive_config 8 4 2 POLICY_FIFO) 0 0
            { cache := [{ cache_line := [default, default], plru_bits := 0, fifo_pointer := 0 }]
              total_access_times := 0
              total_hit_times := 0 }).total_access_times) :=
  C8_statistics (derive_config 8 4 2 POLICY_FIFO) 0 0
    { cache := [{ cache_line := [default, default], plru_bits := 0, fifo_pointer := 0 }]
      total_access_times := 0
      total_hit_times := 0 }

/-- C9: index bound safety — for every valid configuration and every
address the decoded index lies in `[0, set_num)`, so the `cache[index]`
lookup of `access_cache` stays within the store bounds in every
well-formed state. -/
theorem C9_index_in_bounds (t b a : Nat) (p : replacement_policy_t) (addr : Nat)
    (hv : valid_params t b a) :
    GET_INDEX (derive_config t b a p) addr < (derive_config t b a p).set_num ∧
      ∀ st : sim_state_t, wf_state (derive_config t b a p) st →
        GET_INDEX (derive_config t b a p) addr < st.cache.length := by
  refine ⟨GET_INDEX_lt_set_num t b a p addr hv, ?_⟩
  intro st hwf
  rw [hwf.1]
  exact GET_INDEX_lt_set_num t b a p addr hv

theorem C9_index_in_bounds_witness :
    valid_params 16 4 1 ∧
      (GET_INDEX (derive_config 16 4 1 POLICY_PLRU) 7 <
          (derive_config 16 4 1 POLICY_PLRU).set_num ∧
        ∀ st : sim_state_t, wf_state (derive_config 16 4 1 POLICY_PLRU) st →
          GET_INDEX (derive_config 16 4 1 POLICY_PLRU) 7 < st.cache.length) :=
  ⟨by decide, C9_index_in_bounds 16 4 1 POLICY_PLRU 7 (by decide)⟩

/-- The state an access that hits in way `w` produces (hit branch of
`access_cache`, cachesim.c lines 302-308). -/
theorem access_cache_hit_eq (cfg : cache_config_t) (r addr : Nat) (st : sim_state_t)
    (w : Nat)
    (hfw : find_hit_way (GET_TAG cfg addr)
      ((set_of st (GET_INDEX cfg addr)).cache_line) = some w) :
    access_cache cfg r addr st =
      { cache := st.cache.set (GET_INDEX cfg addr)
          (if cfg.policy = POLICY_PLRU then
            { set_of st (GET_INDEX cfg addr) with
              plru_bits := update_plru_victim_way cfg.associativity
                (set_of st (GET_INDEX cfg addr)).plru_bits w }
          else set_of st (GET_INDEX cfg addr))
        total_access_times := st.total_access_times + 1
        total_hit_times := st.total_hit_times + 1 } := by
  simp only [access_cache]
  rw [hfw]

/-- The state an access that misses produces (miss branch of
`access_cache`, cachesim.c lines 309-330). -/
theorem access_cache_miss_eq (cfg : cache_config_t) (r addr : Nat) (st : sim_state_t)
    (hfw : find_hit_way (GET_TAG cfg addr)
      ((set_of st (GET_INDEX cfg addr)).cache_line) = none) :
    access_cache cfg r addr st =
      { cache := st.cache.set (GET_INDEX cfg addr)
          { (select_victim cfg r (set_of st (GET_INDEX cfg addr))).2 with
            cache_line :=
              ((select_victim cfg r (set_of st (GET_INDEX cfg addr))).2).cache_line.set
                (select_victim cfg r (set_of st (GET_INDEX cfg addr))).1
                { valid := true, tag := GET_TAG cfg addr } }
        total_access_times := st.total_access_times + 1
        total_hit_times := st.total_hit_times } := by
  simp only [access_cache]
  rw [hfw]

/-- C2: hit/miss semantics of a single access — the access is a hit
(the hit counter bumps) exactly when some line of the selected set is
valid and holds the decoded tag; a hit changes no cache line anywhere;
a miss overwrites exactly the victim way returned by the configured
policy's `select_victim` with the decoded tag, marks it valid, and
leaves every other line (in this set via `List.set`, and in every other
set) unchanged. -/
theorem C2_access_semantics (t b a : Nat) (p : replacement_policy_t) (r addr : Nat)
    (st : sim_state_t) (hv : valid_params t b a)
    (hwf : wf_state (derive_config t b a p) st) :
    ((access_cache (derive_config t b a p) r addr st).total_hit_times =
        st.total_hit_times + 1 ↔
      tag_match_exists (GET_TAG (derive_config t b a p) addr)
        (set_of st (GET_INDEX (derive_config t b a p) addr))) ∧
      (tag_match_exists (GET_TAG (derive_config t b a p) addr)
          (set_of st (GET_INDEX (derive_config t b a p) addr)) →
        ∀ j, j < (derive_config t b a p).set_num →
          (set_of (access_cache (derive_config t b a p) r addr st) j).cache_line =
            (set_of st j).cache_line) ∧
      (¬ tag_match_exists (GET_TAG (derive_config t b a p) addr)
          (set_of st (GET_INDEX (derive_config t b a p) addr)) →
        (select_victim (derive_config t b a p) r
              (set_of st (GET_INDEX (derive_config t b a p) addr))).1 <
            (derive_config t b a p).associativity ∧
          (set_of (access_cache (derive_config t b a p) r addr st)
              (GET_INDEX (derive_config t b a p) addr)).cache_line =
            ((set_of st (GET_INDEX (derive_config t b a p) addr)).cache_line).set
              (select_victim (derive_config t b a p) r
                (set_of st (GET_INDEX (derive_config t b a p) addr))).1
              { valid := true, tag := GET_TAG (derive_config t b a p) addr } ∧
          ∀ j, j < (derive_config t b a p).set_num →
            j ≠ GET_INDEX (derive_config t b a p) addr →
            (set_of (access_cache (derive_config t b a p) r addr st) j).cache_line =
              (set_of st j).cache_line) := by
  have hidx : GET_INDEX (derive_config t b a p) addr < st.cache.length := by
    rw [hwf.1]
    exact GET_INDEX_lt_set_num t b a p addr hv
  cases hfw : find_hit_way (GET_TAG (derive_config t b a p) addr)
      ((set_of st (GET_INDEX (derive_config t b a p) addr)).cache_line) with
  | some w =>
    have hmatch : tag_match_exists (GET_TAG (derive_config t b a p) addr)
        (set_of st (GET_INDEX (derive_config t b a p) addr)) :=
      find_hit_way_some_exists _ _ w hfw
    rw [access_cache_hit_eq _ r addr st w hfw]
    refine ⟨iff_of_true rfl hmatch, ?_, fun hmiss => absurd hmatch hmiss⟩
    intro _ j _
    simp only [set_of]
    rcases eq_or_ne j (GET_INDEX (derive_config t b a p) addr) with rfl | hne
    · rw [getD_set_self _ _ _ _ hidx]
      split <;> rfl
    · rw [getD_set_ne _ _ _ _ _ hne]
  | none =>
    have hmiss : ¬ tag_match_exists (GET_TAG (derive_config t b a p) addr)
        (set_of st (GET_INDEX (derive_config t b a p) addr)) := by
      rintro ⟨l, hl, hm⟩
      exact (find_hit_way_none_iff _ _).mp hfw l hl hm
    have hmem : set_of st (GET_INDEX (derive_config t b a p) addr) ∈ st.cache := by
      rw [set_of, List.getD_eq_getElem?_getD, List.getElem?_eq_getElem hidx]
      exact List.getElem_mem hidx
    have hfifo : (set_of st (GET_INDEX (derive_config t b a p) addr)).fifo_pointer <
        (derive_config t b a p).associativity := (hwf.2 _ hmem).2
    rw [access_cache_miss_eq _ r addr st hfw]
    refine ⟨?_, fun hmatch => absurd hmatch hmiss, ?_⟩
    · refine iff_of_false ?_ hmiss
      dsimp only
      omega
    · intro _
      refine ⟨select_victim_lt _ r _ hv.2.2.1 hfifo, ?_, ?_⟩
      · simp only [set_of]
        rw [getD_set_self _ _ _ _ hidx]
        dsimp only
        rw [select_victim_cache_line]
      · intro j _ hne
        simp only [set_of]
        rw [getD_set_ne _ _ _ _ _ hne]

theorem C2_access_semantics_witness :
    valid_params 8 4 2 ∧
      wf_state (derive_config 8 4 2 POLICY_FIFO) demo_state ∧
      (((access_cache (derive_config 8 4 2 POLICY_FIFO) 0 0 demo_state).total_hit_times =
          demo_state.total_hit_times + 1 ↔
        tag_match_exists (GET_TAG (derive_config 8 4 2 POLICY_FIFO) 0)
          (set_of demo_state (GET_INDEX (derive_config 8 4 2 POLICY_FIFO) 0))) ∧
      (tag_match_exists (GET_TAG (derive_config 8 4 2 POLICY_FIFO) 0)
          (set_of demo_state (GET_INDEX (derive_config 8 4 2 POLICY_FIFO) 0)) →
        ∀ j, j < (derive_config 8 4 2 POLICY_FIFO).set_num →
          (set_of (access_cache (derive_config 8 4 2 POLICY_FIFO) 0 0 demo_state) j).cache_line =
            (set_of demo_state j).cache_line) ∧
      (¬ tag_match_exists (GET_TAG (derive_config 8 4 2 POLICY_FIFO) 0)
          (set_of demo_state (GET_INDEX (derive_config 8 4 2 POLICY_FIFO) 0)) →
        (select_victim (derive_config 8 4 2 POLICY_FIFO) 0
              (set_of demo_state (GET_INDEX (derive_config 8 4 2 POLICY_FIFO) 0))).1 <
            (derive_config 8 4 2 POLICY_FIFO).associativity ∧
          (set_of (access_cache (derive_config 8 4 2 POLICY_FIFO) 0 0 demo_state)
              (GET_INDEX (derive_config 8 4 2 POLICY_FIFO) 0)).cache_line =
            ((set_of demo_state (GET_INDEX (derive_config 8 4 2 POLICY_FIFO) 0)).cache_line).set
              (select_victim (derive_config 8 4 2 POLICY_FIFO) 0
                (set_of demo_state (GET_INDEX (derive_config 8 4 2 POLICY_FIFO) 0))).1
              { valid := true, tag := GET_TAG (derive_config 8 4 2 POLICY_FIFO) 0 } ∧
          ∀ j, j < (derive_config 8 4 2 POLICY_FIFO).set_num →
            j ≠ GET_INDEX (derive_config 8 4 2 POLICY_FIFO) 0 →
            (set_of (access_cache (derive_config 8 4 2 POLICY_FIFO) 0 0 demo_state) j).cache_line =
              (set_of demo_state j).cache_line)) :=
  ⟨by decide, by decide,
    C2_access_semantics 8 4 2 POLICY_FIFO 0 0 demo_state (by decide) (by decide)⟩

/-- C6: FIFO — starting from the initial pointer 0 the victims of
successive misses within one set are exactly
`0, 1, ..., associativity-1, 0, 1, ...`; an access that hits changes no
set's `fifo_pointer`; and a miss leaves the `fifo_pointer` of every
other set unchanged. -/
theorem C6_fifo_sequence (t b a : Nat) (r addr : Nat) (st : sim_state_t)
    (hv : valid_params t b a)
    (hwf : wf_state (derive_config t b a POLICY_FIFO) st) :
    (∀ k, (find_and_update_fifo_victim_way a (fifo_ptr_iter a k 0)).1 = k % a) ∧
      (tag_match_exists (GET_TAG (derive_config t b a POLICY_FIFO) addr)
          (set_of st (GET_INDEX (derive_config t b a POLICY_FIFO) addr)) →
        ∀ j, j < (derive_config t b a POLICY_FIFO).set_num →
          (set_of (access_cache (derive_config t b a POLICY_FIFO) r addr st) j).fifo_pointer =
            (set_of st j).fifo_pointer) ∧
      (¬ tag_match_exists (GET_TAG (derive_config t b a POLICY_FIFO) addr)
          (set_of st (GET_INDEX (derive_config t b a POLICY_FIFO) addr)) →
        ∀ j, j < (derive_config t b a POLICY_FIFO).set_num →
          j ≠ GET_INDEX (derive_config t b a POLICY_FIFO) addr →
          (set_of (access_cache (derive_config t b a POLICY_FIFO) r addr st) j).fifo_pointer =
            (set_of st j).fifo_pointer) := by
  have hapos : 0 < a := by
    obtain ⟨e, he⟩ := exists_pow_of_is_pow_2 hv.2.2.1
    rw [he]
    exact Nat.pow_pos (by omega)
  have hidx : GET_INDEX (derive_config t b a POLICY_FIFO) addr < st.cache.length := by
    rw [hwf.1]
    exact GET_INDEX_lt_set_num t b a POLICY_FIFO addr hv
  refine ⟨?_, ?_, ?_⟩
  · intro k
    show fifo_ptr_iter a k 0 = k % a
    rw [fifo_ptr_iter_mod a hapos k 0 hapos, Nat.zero_add]
  · intro hmatch j _
    cases hfw : find_hit_way (GET_TAG (derive_config t b a POLICY_FIFO) addr)
        ((set_of st (GET_INDEX (derive_config t b a POLICY_FIFO) addr)).cache_line) with
    | none =>
      exfalso
      obtain ⟨l, hl, hm⟩ := hmatch
      exact (find_hit_way_none_iff _ _).mp hfw l hl hm
    | some w =>
      rw [access_cache_hit_eq _ r addr st w hfw]
      have hp : ¬ (derive_config t b a POLICY_FIFO).policy = POLICY_PLRU := by
        simp [derive_config]
      rw [if_neg hp]
      simp only [set_of]
      rcases eq_or_ne j (GET_INDEX (derive_config t b a POLICY_FIFO) addr) with rfl | hne
      · rw [getD_set_self _ _ _ _ hidx]
      · rw [getD_set_ne _ _ _ _ _ hne]
  · intro hmiss j _ hne
    cases hfw : find_hit_way (GET_TAG (derive_config t b a POLICY_FIFO) addr)
        ((set_of st (GET_INDEX (derive_config t b a POLICY_FIFO) addr)).cache_line) with
    | some w =>
      exact absurd (find_hit_way_some_exists _ _ w hfw) hmiss
    | none =>
      rw [access_cache_miss_eq _ r addr st hfw]
      simp only [set_of]
      rw [getD_set_ne _ _ _ _ _ hne]

theorem C6_fifo_sequence_witness :
    valid_params 8 4 2 ∧
      wf_state (derive_config 8 4 2 POLICY_FIFO) demo_state ∧
      ((∀ k, (find_and_update_fifo_victim_way 2 (fifo_ptr_iter 2 k 0)).1 = k % 2) ∧
        (tag_match_exists (GET_TAG (derive_config 8 4 2 POLICY_FIFO) 0)
            (set_of demo_state (GET_INDEX (derive_config 8 4 2 POLICY_FIFO) 0)) →
          ∀ j, j < (derive_config 8 4 2 POLICY_FIFO).set_num →
            (set_of (access_cache (derive_config 8 4 2 POLICY_FIFO) 0 0 demo_state) j).fifo_pointer =
              (set_of demo_state j).fifo_pointer) ∧
        (¬ tag_match_exists (GET_TAG (derive_config 8 4 2 POLICY_FIFO) 0)
            (set_of demo_state (GET_INDEX (derive_config 8 4 2 POLICY_FIFO) 0)) →
          ∀ j, j < (derive_config 8 4 2 POLICY_FIFO).set_num →
            j ≠ GET_INDEX (derive_config 8 4 2 POLICY_FIFO) 0 →
            (set_of (access_cache (derive_config 8 4 2 POLICY_FIFO) 0 0 demo_state) j).fifo_pointer =
              (set_of demo_state j).fifo_pointer)) :=
  ⟨by decide, by decide,
    C6_fifo_sequence 8 4 2 0 0 demo_state (by decide) (by decide)⟩
